import Mathlib

/-!
# Verification of the motor-BLE telemetry protocol engine

Shallow embedding of the telemetry stream decoder and the command-sending
path of the motor-BLE controller:

* `parseTelemetry` embeds the line validator `parseTelemetry` of
  `src/client/src/components/DebugConsole.tsx` (telemetry-parser section,
  lines 174-228).  Strings are modelled as `List Char`; the JavaScript
  regular expression `/Motor:\s*(\w+)\s+Speed:\s*([\d.]+)\s+Anomaly:\s*(\d+)%/i`
  is embedded as a deterministic leftmost scanner (`findMatch`), which is
  observationally equal to the backtracking regex because every quantified
  class in the pattern (`\s`, `\w`, `[\d.]`, `\d`) is disjoint from the
  character that must follow it, so greedy matching never backtracks into
  a successful continuation: each quantifier consumes its maximal run.
* `feed` / `reset` embed the `TelemetryStreamParser` class (lines 234-281):
  the buffer is extended, split on `'\n'`, the last segment becomes the new
  buffer and every other segment goes through `parseTelemetry`.
* `sendCommand` embeds `sendCommand` of `src/client/src/pages/FanController.tsx`
  (lines 204-219): commands are rejected with the error
  "Not connected to device" unless a characteristic is held and the
  `connected` flag is set, and otherwise `command ++ "\n"` is written to the
  transport.

Numbers: the JavaScript floats are modelled by `ℚ` (exact decimal parsing);
`parseInt` on a digit run is modelled by `ℕ`.  The derived `rpm` field is
computed by the source as `speed * 60 / (2 * Math.PI)` (line 211); since it
involves `π` it is embedded as the derived real-valued attribute
`MotorTelemetry.rpm`, exactly the formula of line 211.  The `timestamp`
field (`Date.now()`, wall-clock) is outside the embedding.
-/

namespace MotorBle

/-- JavaScript whitespace class `\s` restricted to the ASCII range used by
the wire protocol (the protocol is ASCII, spec section 6). -/
def isWs (c : Char) : Bool :=
  c == ' ' || c == '\t' || c == '\n' || c == '\r' || c == '\x0b' || c == '\x0c'

/-- JavaScript word class `\w`, that is `[A-Za-z0-9_]`. -/
def isWordChar (c : Char) : Bool :=
  c.isAlpha || c.isDigit || c == '_'

/-- Character class `[\d.]` of the speed token. -/
def isSpeedChar (c : Char) : Bool :=
  c.isDigit || c == '.'

/-- Case-insensitive literal matching: `ciMatches pat s` consumes `pat` (given
lowercased) from the front of `s`, comparing each char of `s` lowercased,
and returns the rest of `s`.  This embeds matching a literal under the
regex `i` flag. -/
def ciMatches : List Char → List Char → Option (List Char)
  | [], s => some s
  | _ :: _, [] => none
  | p :: ps, c :: cs => if c.toLower = p then ciMatches ps cs else none

/-- Continuation of `tryMatch` after the status token has been read:
`\s+Speed:\s*([\d.]+)\s+Anomaly:\s*(\d+)%` with the greedy quantifiers
realised as maximal runs (see the header comment for why this is exact). -/
def tryMatchAfterStatus (stok s3 : List Char) :
    Option (List Char × List Char × List Char) :=
  if (s3.takeWhile isWs).isEmpty then none else
  match ciMatches "speed:".toList (s3.dropWhile isWs) with
  | none => none
  | some s4 =>
    let s5 := s4.dropWhile isWs
    let sptok := s5.takeWhile isSpeedChar
    if sptok.isEmpty then none else
    let s6 := s5.dropWhile isSpeedChar
    if (s6.takeWhile isWs).isEmpty then none else
    match ciMatches "anomaly:".toList (s6.dropWhile isWs) with
    | none => none
    | some s7 =>
      let s8 := s7.dropWhile isWs
      let ptok := s8.takeWhile Char.isDigit
      if ptok.isEmpty then none else
      match s8.dropWhile Char.isDigit with
      | '%' :: _ => some (stok, sptok, ptok)
      | _ => none

/-- One attempt of the regex
`/Motor:\s*(\w+)\s+Speed:\s*([\d.]+)\s+Anomaly:\s*(\d+)%/i` at the current
position; returns the three capture groups (status, speed, percent). -/
def tryMatch (s : List Char) : Option (List Char × List Char × List Char) :=
  match ciMatches "motor:".toList s with
  | none => none
  | some s1 =>
    let s2 := s1.dropWhile isWs
    let stok := s2.takeWhile isWordChar
    if stok.isEmpty then none else
    tryMatchAfterStatus stok (s2.dropWhile isWordChar)

/-- Leftmost match of the unanchored regex: `String.prototype.match` with a
non-global regex tries every start position from the left and returns the
first success. -/
def findMatch : List Char → Option (List Char × List Char × List Char)
  | [] => none
  | c :: rest =>
    match tryMatch (c :: rest) with
    | some r => some r
    | none => findMatch rest

/-- `String.prototype.trim` (ASCII whitespace, as in the wire format). -/
def trim (l : List Char) : List Char :=
  ((l.dropWhile isWs).reverse.dropWhile isWs).reverse

/-- Numeric value of a decimal digit character. -/
def digitVal (c : Char) : Nat := c.toNat - '0'.toNat

/-- Value of a run of decimal digits (used for `parseInt(tok, 10)` on the
`\d+` percent capture, which is never `NaN`). -/
def digitsToNat (l : List Char) : Nat :=
  l.foldl (fun n c => 10 * n + digitVal c) 0

/-- `parseFloat` restricted to inputs drawn from `[\d.]+` (the speed
capture): the longest prefix of shape `\d*(\.\d*)?` is converted, and the
result is `NaN` (here `none`) exactly when that prefix holds no digit.
E.g. `"15.50" ↦ 31/2`, `"1.2.3" ↦ 6/5`, `"." ↦ none`. -/
def parseFloatTok (l : List Char) : Option ℚ :=
  let ip := l.takeWhile Char.isDigit
  match l.dropWhile Char.isDigit with
  | '.' :: r =>
    let fp := r.takeWhile Char.isDigit
    if ip.isEmpty && fp.isEmpty then none
    else some ((digitsToNat ip : ℚ) + (digitsToNat fp : ℚ) / (10 : ℚ) ^ fp.length)
  | _ => if ip.isEmpty then none else some (digitsToNat ip)

/-- The status union type `'Running' | 'Stop' | 'Error'` of the source
(`MotorTelemetry` interface, line 159). -/
inductive MotorStatus
  | Running
  | Stop
  | Error
deriving DecidableEq

/-- A decoded telemetry record (interface `MotorTelemetry`, lines 158-165,
without the wall-clock `timestamp`; the derived `rpm` is the function
`MotorTelemetry.rpm` below). -/
structure MotorTelemetry where
  status : MotorStatus
  speed : ℚ
  anomalyPercentage : Nat
  anomalyDetected : Bool
deriving DecidableEq

/-- The rpm value stored by source line 211:
`const rpm = (speed * 60) / (2 * Math.PI)`.  The spec (section 3) notes it is
"not independently stored, always derivable", so it is embedded as the
derived attribute; `Math.PI` is embedded as the real `π`. -/
noncomputable def MotorTelemetry.rpm (t : MotorTelemetry) : ℝ :=
  (t.speed : ℝ) * 60 / (2 * Real.pi)

/-- The case-sensitive membership test of source line 193:
`['Running', 'Stop', 'Error'].includes(status)`, fused with the assignment
of the matched variant. -/
def statusOfToken (tok : List Char) : Option MotorStatus :=
  if tok = "Running".toList then some MotorStatus.Running
  else if tok = "Stop".toList then some MotorStatus.Stop
  else if tok = "Error".toList then some MotorStatus.Error
  else none

/-- Validation pipeline of `parseTelemetry` after the regex has produced its
three captures (source lines 188-223): status membership, speed
`isNaN || < 0 || > 25`, percent `isNaN || < 0 || > 100` (`parseInt` of a
`\d+` capture is a natural number, so its `NaN`/negative cases are vacuous),
then the anomaly flag `percentage > 50`. -/
def parseLineToks (stok sptok ptok : List Char) : Option MotorTelemetry :=
  match statusOfToken stok with
  | none => none
  | some status =>
    match parseFloatTok sptok with
    | none => none
    | some speed =>
      if speed < 0 ∨ 25 < speed then none
      else
        let perc := digitsToNat ptok
        if 100 < perc then none
        else some { status := status, speed := speed, anomalyPercentage := perc,
                    anomalyDetected := decide (50 < perc) }

/-- `parseTelemetry` (source lines 174-228): trim the message, find the
leftmost match of the unanchored pattern, validate the captures.  The
`try/catch` of the source can only report `null`, which `Option` models. -/
def parseTelemetry (message : List Char) : Option MotorTelemetry :=
  match findMatch (trim message) with
  | none => none
  | some (stok, sptok, ptok) => parseLineToks stok sptok ptok

/-- `buffer.split('\n')` helper: prepend a character to the first segment. -/
def consHead (c : Char) : List (List Char) → List (List Char)
  | [] => [[c]]
  | s :: ss => (c :: s) :: ss

/-- `String.prototype.split('\n')`: always returns at least one (possibly
empty) segment; a trailing `'\n'` yields a trailing empty segment. -/
def splitNl : List Char → List (List Char)
  | [] => [[]]
  | c :: rest => if c = '\n' then [] :: splitNl rest else consHead c (splitNl rest)

/-- Last segment of a split (the `lines[lines.length - 1]` of source
line 255); total because a split is never empty. -/
def lastSeg : List (List Char) → List Char
  | [] => []
  | [s] => s
  | _ :: s :: ss => lastSeg (s :: ss)

/-- State of a `TelemetryStreamParser` instance: the private string field
`buffer` (source line 235). -/
structure ParserState where
  buffer : List Char
deriving DecidableEq

/-- A freshly constructed `TelemetryStreamParser` (`buffer = ''`). -/
def freshState : ParserState := ⟨[]⟩

/-- `TelemetryStreamParser.feed` (source lines 242-266): append the chunk to
the buffer, split on `'\n'`, keep the last segment as the new buffer, and
run `parseTelemetry` over every complete line in order, keeping the
successes (`frames.push` inside the loop is `filterMap`). -/
def feed (st : ParserState) (data : List Char) : List MotorTelemetry × ParserState :=
  let lines := splitNl (st.buffer ++ data)
  (lines.dropLast.filterMap parseTelemetry, ⟨lastSeg lines⟩)

/-- `TelemetryStreamParser.reset` (source lines 271-273): `buffer = ''`. -/
def reset (_st : ParserState) : ParserState := ⟨[]⟩

/-- Feeding a sequence of chunks in order, concatenating the returned
record sequences (the caller-side iteration of `feed`). -/
def feedAll : ParserState → List (List Char) → List MotorTelemetry × ParserState
  | st, [] => ([], st)
  | st, c :: cs =>
    let r := feed st c
    let r2 := feedAll r.2 cs
    (r.1 ++ r2.1, r2.2)

/-- The connection-session state consulted by `sendCommand`
(`FanController.tsx`): whether `characteristicRef.current` is non-null,
the `connected` React state, and the surfaced `error` state. -/
structure SessionState where
  hasCharacteristic : Bool
  connected : Bool
  error : Option (List Char)
deriving DecidableEq

/-- The error surfaced by `sendCommand` when not connected (source
line 206). -/
def notConnectedMsg : List Char := "Not connected to device".toList

/-- The guard of source line 205: a command may be dispatched exactly when a
characteristic is held and the session is connected. -/
def isConnectedSession (st : SessionState) : Bool :=
  st.hasCharacteristic && st.connected

/-- `sendCommand` (source lines 204-219): when the guard fails, surface the
error and write nothing; otherwise write exactly `command + '\n'` to the
transport.  The second component lists the byte strings handed to
`writeValue`. -/
def sendCommand (st : SessionState) (command : List Char) :
    SessionState × List (List Char) :=
  if !st.hasCharacteristic || !st.connected then
    ({ st with error := some notConnectedMsg }, [])
  else
    (st, [command ++ ['\n']])

/-- A wire-format line (spec section 6) with an arbitrary status token and
fixed valid speed and percent tokens; used to quantify over status tokens. -/
def mkStatusLine (tok : List Char) : List Char :=
  "Motor: ".toList ++ tok ++ " Speed: 1.0 Anomaly: 0%".toList

/-- Prepend a string to the first segment of a split (support definition for
the `splitNl` append law). -/
def glueFirst (a : List Char) : List (List Char) → List (List Char)
  | [] => [a]
  | s :: ss => (a ++ s) :: ss

/-! ## Algebra of `splitNl` and `feed` -/

theorem splitNl_ne_nil (l : List Char) : splitNl l ≠ [] := by
  induction l with
  | nil => simp [splitNl]
  | cons c rest ih =>
    simp only [splitNl]
    split
    · simp
    · cases h : splitNl rest with
      | nil => simp [consHead]
      | cons s ss => simp [consHead]

theorem not_nl_mem_splitNl (l : List Char) : ∀ s ∈ splitNl l, '\n' ∉ s := by
  induction l with
  | nil =>
    intro s hs
    simp [splitNl] at hs
    simp [hs]
  | cons c rest ih =>
    intro s hs
    simp only [splitNl] at hs
    by_cases hc : c = '\n'
    · rw [if_pos hc] at hs
      rcases List.mem_cons.mp hs with rfl | h
      · simp
      · exact ih s h
    · rw [if_neg hc] at hs
      cases hsp : splitNl rest with
      | nil => exact absurd hsp (splitNl_ne_nil rest)
      | cons t ts =>
        rw [hsp] at hs
        simp only [consHead, List.mem_cons] at hs
        rcases hs with rfl | h
        · intro hmem
          rcases List.mem_cons.mp hmem with heq | hmem2
          · exact hc heq.symm
          · exact ih t (by rw [hsp]; exact List.mem_cons_self t ts) hmem2
        · exact ih s (by rw [hsp]; exact List.mem_cons_of_mem t h)

theorem splitNl_cons_nl (rest : List Char) :
    splitNl ('\n' :: rest) = [] :: splitNl rest := by
  simp [splitNl]

theorem splitNl_cons_ne {c : Char} (rest : List Char) (h : ¬ c = '\n') :
    splitNl (c :: rest) = consHead c (splitNl rest) := by
  simp [splitNl, h]

theorem splitNl_no_nl {l : List Char} (h : '\n' ∉ l) : splitNl l = [l] := by
  induction l with
  | nil => rfl
  | cons c rest ih =>
    simp only [List.mem_cons, not_or] at h
    rw [splitNl_cons_ne rest (fun e => h.1 e.symm), ih h.2]
    rfl

theorem lastSeg_cons_ne {a : List Char} {l : List (List Char)} (h : l ≠ []) :
    lastSeg (a :: l) = lastSeg l := by
  cases l with
  | nil => exact absurd rfl h
  | cons s ss => simp [lastSeg]

theorem lastSeg_mem {l : List (List Char)} (h : l ≠ []) : lastSeg l ∈ l := by
  induction l with
  | nil => exact absurd rfl h
  | cons s ss ih =>
    cases hss : ss with
    | nil => simp [lastSeg]
    | cons t ts =>
      rw [lastSeg_cons_ne (by simp [hss])]
      exact List.mem_cons_of_mem s (hss ▸ ih (by simp [hss]))

theorem lastSeg_append {A B : List (List Char)} (h : B ≠ []) :
    lastSeg (A ++ B) = lastSeg B := by
  induction A with
  | nil => rfl
  | cons a A' ih =>
    rw [List.cons_append, lastSeg_cons_ne (by simp [h]), ih]

theorem glueFirst_ne_nil (a : List Char) (l : List (List Char)) :
    glueFirst a l ≠ [] := by
  cases l <;> simp [glueFirst]

theorem splitNl_append (x y : List Char) :
    splitNl (x ++ y) =
      (splitNl x).dropLast ++ glueFirst (lastSeg (splitNl x)) (splitNl y) := by
  induction x with
  | nil =>
    cases h : splitNl y with
    | nil => exact absurd h (splitNl_ne_nil y)
    | cons t ts => simp [splitNl, lastSeg, glueFirst, h]
  | cons c x' ih =>
    by_cases hc : c = '\n'
    · subst hc
      rw [List.cons_append, splitNl_cons_nl, splitNl_cons_nl, ih,
        List.dropLast_cons_of_ne_nil (splitNl_ne_nil x'),
        lastSeg_cons_ne (splitNl_ne_nil x'), List.cons_append]
    · rw [List.cons_append, splitNl_cons_ne _ hc, splitNl_cons_ne _ hc, ih]
      cases hx' : splitNl x' with
      | nil => exact absurd hx' (splitNl_ne_nil x')
      | cons s ss =>
        cases hss : ss with
        | nil =>
          cases ht : splitNl y with
          | nil => exact absurd ht (splitNl_ne_nil y)
          | cons t ts => simp [lastSeg, glueFirst, consHead, ht]
        | cons u us =>
          subst hss
          simp only [List.dropLast_cons₂, List.cons_append, consHead,
            lastSeg_cons_ne (List.cons_ne_nil u us)]

theorem nl_not_mem_feed_buffer (st : ParserState) (data : List Char) :
    '\n' ∉ (feed st data).2.buffer :=
  not_nl_mem_splitNl _ _ (lastSeg_mem (splitNl_ne_nil _))

theorem feed_nil {st : ParserState} (h : '\n' ∉ st.buffer) :
    feed st [] = ([], st) := by
  unfold feed
  rw [List.append_nil, splitNl_no_nl h]
  simp [lastSeg]

theorem feed_append (st : ParserState) (a b : List Char) :
    feed st (a ++ b) =
      ((feed st a).1 ++ (feed (feed st a).2 b).1, (feed (feed st a).2 b).2) := by
  have hmem : '\n' ∉ lastSeg (splitNl (st.buffer ++ a)) :=
    not_nl_mem_splitNl _ _ (lastSeg_mem (splitNl_ne_nil _))
  unfold feed
  simp only
  rw [← List.append_assoc, splitNl_append (st.buffer ++ a) b,
    splitNl_append (lastSeg (splitNl (st.buffer ++ a))) b,
    splitNl_no_nl hmem]
  simp only [List.dropLast_single, List.nil_append, lastSeg]
  rw [List.dropLast_append_of_ne_nil _ (glueFirst_ne_nil _ _),
    lastSeg_append (glueFirst_ne_nil _ _), List.filterMap_append]

theorem feedAll_eq_feed_flatten (chunks : List (List Char)) :
    ∀ st : ParserState, '\n' ∉ st.buffer →
      feedAll st chunks = feed st chunks.flatten := by
  induction chunks with
  | nil =>
    intro st h
    rw [feedAll, List.flatten, feed_nil h]
  | cons c cs ih =>
    intro st h
    rw [feedAll, List.flatten, feed_append st c cs.flatten,
      ih (feed st c).2 (nl_not_mem_feed_buffer st c)]

/-! ## Token-level scanning lemmas -/

theorem takeWhile_append_all {α : Type} {p : α → Bool} {l : List α}
    (h : ∀ a ∈ l, p a = true) (r : List α) :
    (l ++ r).takeWhile p = l ++ r.takeWhile p := by
  induction l with
  | nil => rfl
  | cons a l' ih =>
    rw [List.cons_append, List.takeWhile_cons_of_pos (h a (List.mem_cons_self a l')),
      ih (fun b hb => h b (List.mem_cons_of_mem a hb)), List.cons_append]

theorem dropWhile_append_all {α : Type} {p : α → Bool} {l : List α}
    (h : ∀ a ∈ l, p a = true) (r : List α) :
    (l ++ r).dropWhile p = r.dropWhile p := by
  induction l with
  | nil => rfl
  | cons a l' ih =>
    rw [List.cons_append, List.dropWhile_cons_of_pos (h a (List.mem_cons_self a l')),
      ih (fun b hb => h b (List.mem_cons_of_mem a hb))]

theorem isWordChar_not_ws {c : Char} (h : isWordChar c = true) : isWs c = false := by
  cases hx : isWs c
  · rfl
  · exfalso
    simp only [isWs, Bool.or_eq_true, beq_iff_eq] at hx
    rcases hx with ((((rfl | rfl) | rfl) | rfl) | rfl) | rfl <;> exact absurd h (by decide)

theorem findMatch_of_tryMatch {s : List Char} {r : List Char × List Char × List Char}
    (hne : s ≠ []) (h : tryMatch s = some r) : findMatch s = some r := by
  cases s with
  | nil => exact absurd rfl hne
  | cons c cs => simp [findMatch, h]

theorem trim_of_ends {l : List Char} (h1 : l.dropWhile isWs = l)
    (h2 : l.reverse.dropWhile isWs = l.reverse) : trim l = l := by
  unfold trim
  rw [h1, h2, List.reverse_reverse]

theorem trim_mkStatusLine (tok : List Char) : trim (mkStatusLine tok) = mkStatusLine tok := by
  apply trim_of_ends
  · simp only [mkStatusLine, List.append_assoc]
    show List.dropWhile isWs
        ('M' :: ("otor: ".toList ++ (tok ++ " Speed: 1.0 Anomaly: 0%".toList))) = _
    rw [List.dropWhile_cons_of_neg (by decide)]
    rfl
  · simp only [mkStatusLine, List.append_assoc, List.reverse_append]
    show List.dropWhile isWs
        ('%' :: ("0 :ylamonA 0.1 :deepS ".toList ++
          (tok.reverse ++ "Motor: ".toList.reverse))) = _
    rw [List.dropWhile_cons_of_neg (by decide)]
    rfl

theorem ciMatches_motor (r : List Char) :
    ciMatches "motor:".toList ("Motor: ".toList ++ r) = some (' ' :: r) := rfl

theorem tryMatchAfterStatus_std (stok : List Char) :
    tryMatchAfterStatus stok " Speed: 1.0 Anomaly: 0%".toList =
      some (stok, ['1', '.', '0'], ['0']) := rfl

theorem tryMatch_mkStatusLine {t0 : Char} {tok' : List Char}
    (hw : ∀ c ∈ t0 :: tok', isWordChar c = true) :
    tryMatch (mkStatusLine (t0 :: tok')) = some (t0 :: tok', ['1', '.', '0'], ['0']) := by
  have hw0 : isWordChar t0 = true := hw t0 (List.mem_cons_self t0 tok')
  have hw' : ∀ c ∈ tok', isWordChar c = true :=
    fun c hc => hw c (List.mem_cons_of_mem t0 hc)
  unfold tryMatch
  rw [mkStatusLine, List.append_assoc, ciMatches_motor]
  simp only
  rw [List.dropWhile_cons_of_pos (by decide), List.cons_append,
    List.dropWhile_cons_of_neg (by simp [isWordChar_not_ws hw0]),
    List.takeWhile_cons_of_pos hw0, List.dropWhile_cons_of_pos hw0,
    takeWhile_append_all hw' _, dropWhile_append_all hw' _]
  show (if (t0 :: (tok' ++ [])).isEmpty then _ else
    tryMatchAfterStatus (t0 :: (tok' ++ List.takeWhile isWordChar _))
      (List.dropWhile isWordChar _)) = _
  rw [if_neg (by simp)]
  show tryMatchAfterStatus (t0 :: (tok' ++ List.takeWhile isWordChar
      (' ' :: "Speed: 1.0 Anomaly: 0%".toList)))
    (List.dropWhile isWordChar (' ' :: "Speed: 1.0 Anomaly: 0%".toList)) = _
  rw [List.takeWhile_cons_of_neg (by decide), List.dropWhile_cons_of_neg (by decide),
    List.append_nil]
  exact tryMatchAfterStatus_std (t0 :: tok')

theorem parseLineToks_std (tok : List Char) :
    parseLineToks tok ['1', '.', '0'] ['0'] =
      (statusOfToken tok).map fun s =>
        { status := s, speed := 1, anomalyPercentage := 0, anomalyDetected := false } := by
  unfold parseLineToks
  cases hs : statusOfToken tok with
  | none => rfl
  | some s =>
    have hf : parseFloatTok ['1', '.', '0'] = some 1 := by decide!
    rw [hf]
    simp only
    rw [if_neg (by norm_num), if_neg (by decide)]
    rfl

theorem mkStatusLine_ne_nil (tok : List Char) : mkStatusLine tok ≠ [] := by
  simp [mkStatusLine]

theorem parse_mkStatusLine (tok : List Char) (hne : tok ≠ [])
    (hw : ∀ c ∈ tok, isWordChar c = true) :
    parseTelemetry (mkStatusLine tok) =
      (statusOfToken tok).map fun s =>
        { status := s, speed := 1, anomalyPercentage := 0, anomalyDetected := false } := by
  cases tok with
  | nil => exact absurd rfl hne
  | cons t0 tok' =>
    unfold parseTelemetry
    rw [trim_mkStatusLine,
      findMatch_of_tryMatch (mkStatusLine_ne_nil _) (tryMatch_mkStatusLine hw)]
    exact parseLineToks_std (t0 :: tok')

theorem findMatch_append_of_none {pre rest : List Char} {r : List Char × List Char × List Char}
    (hpre : ∀ i < pre.length, tryMatch (pre.drop i ++ rest) = none)
    (hm : tryMatch rest = some r) :
    findMatch (pre ++ rest) = some r := by
  induction pre with
  | nil =>
    rw [List.nil_append]
    refine findMatch_of_tryMatch ?_ hm
    rintro rfl
    rw [show tryMatch [] = none from rfl] at hm
    exact Option.noConfusion hm
  | cons p ps ih =>
    have h0 : tryMatch (p :: (ps ++ rest)) = none := by
      have := hpre 0 (by simp)
      rwa [List.drop_zero, List.cons_append] at this
    rw [List.cons_append, findMatch, h0]
    exact ih fun i hi => by
      have := hpre (i + 1) (by simpa using hi)
      rwa [List.drop_succ_cons] at this

theorem parseLineToks_anomaly {a b c : List Char} {t : MotorTelemetry}
    (h : parseLineToks a b c = some t) :
    t.anomalyDetected = decide (50 < t.anomalyPercentage) := by
  unfold parseLineToks at h
  cases hs : statusOfToken a with
  | none => rw [hs] at h; exact absurd h (by simp)
  | some status =>
    rw [hs] at h
    cases hp : parseFloatTok b with
    | none => rw [hp] at h; exact absurd h (by simp)
    | some speed =>
      rw [hp] at h
      simp only at h
      by_cases h1 : speed < 0 ∨ 25 < speed
      · rw [if_pos h1] at h; exact absurd h (by simp)
      · rw [if_neg h1] at h
        by_cases h2 : 100 < digitsToNat c
        · rw [if_pos h2] at h; exact absurd h (by simp)
        · rw [if_neg h2] at h
          obtain rfl := Option.some.inj h
          rfl

theorem parseTelemetry_some {msg : List Char} {t : MotorTelemetry}
    (h : parseTelemetry msg = some t) :
    ∃ a b c, findMatch (trim msg) = some (a, b, c) ∧ parseLineToks a b c = some t := by
  unfold parseTelemetry at h
  cases hf : findMatch (trim msg) with
  | none => rw [hf] at h; exact absurd h (by simp)
  | some tk =>
    obtain ⟨a, b, c⟩ := tk
    rw [hf] at h
    exact ⟨a, b, c, rfl, h⟩

/-! ## Claim theorems -/

/-- C1: Fragmentation invariance of the stream decoder: for every input
string and every partition of it into a finite sequence of (possibly empty)
chunks, feeding the chunks in order to a fresh stream parser and
concatenating the returned record sequences yields the same record sequence
and the same final pending buffer as feeding the whole string in a single
`feed` call. -/
theorem feed_fragmentation_invariance (chunks : List (List Char)) :
    feedAll freshState chunks = feed freshState chunks.flatten :=
  feedAll_eq_feed_flatten chunks freshState (by simp [freshState])

/-- C2: Feed contract on the concrete scenario: from a fresh parser,
feeding "Motor: Running  Speed: 15." returns no record and buffers the
chunk; the subsequent feed of "50 Anomaly: 5%\nMotor: Stop" returns exactly
one record (Running, speed 15.50, anomaly 5, not detected) and leaves
"Motor: Stop" as the pending buffer. -/
theorem feed_scenario_two_chunks :
    feed freshState "Motor: Running  Speed: 15.".toList =
      ([], ⟨"Motor: Running  Speed: 15.".toList⟩) ∧
    feed ⟨"Motor: Running  Speed: 15.".toList⟩ "50 Anomaly: 5%\nMotor: Stop".toList =
      ([⟨MotorStatus.Running, 31/2, 5, false⟩], ⟨"Motor: Stop".toList⟩) :=
  ⟨by decide, by decide!⟩

/-- C5: Invalid lines are silently dropped without poisoning the stream:
each line of the rejection set parses to no record, and a valid line after
a rejected one — in the same chunk or in a later chunk — is decoded
normally, leaving a clean buffer. -/
theorem invalid_lines_dropped :
    parseTelemetry "Motor: Walking Speed: 1.0 Anomaly: 0%".toList = none ∧
    parseTelemetry "Motor: Running Speed: 30.0 Anomaly: 0%".toList = none ∧
    parseTelemetry "Motor: Running Speed: 1.0 Anomaly: 150%".toList = none ∧
    parseTelemetry "garbage".toList = none ∧
    feed freshState
        "Motor: Walking Speed: 1.0 Anomaly: 0%\nMotor: Running  Speed: 15.50 Anomaly: 5%\n".toList =
      ([⟨MotorStatus.Running, 31/2, 5, false⟩], freshState) ∧
    feed freshState
        "Motor: Running Speed: 30.0 Anomaly: 0%\nMotor: Running  Speed: 15.50 Anomaly: 5%\n".toList =
      ([⟨MotorStatus.Running, 31/2, 5, false⟩], freshState) ∧
    feed freshState
        "Motor: Running Speed: 1.0 Anomaly: 150%\nMotor: Running  Speed: 15.50 Anomaly: 5%\n".toList =
      ([⟨MotorStatus.Running, 31/2, 5, false⟩], freshState) ∧
    feed freshState
        "garbage\nMotor: Running  Speed: 15.50 Anomaly: 5%\n".toList =
      ([⟨MotorStatus.Running, 31/2, 5, false⟩], freshState) ∧
    feedAll freshState
        ["Motor: Walking Speed: 1.0 Anomaly: 0%\n".toList,
         "Motor: Running  Speed: 15.50 Anomaly: 5%\n".toList] =
      ([⟨MotorStatus.Running, 31/2, 5, false⟩], freshState) ∧
    feedAll freshState
        ["garbage\n".toList, "Motor: Running  Speed: 15.50 Anomaly: 5%\n".toList] =
      ([⟨MotorStatus.Running, 31/2, 5, false⟩], freshState) :=
  ⟨by decide, by decide!, by decide!, by decide, by decide!, by decide!,
   by decide!, by decide!, by decide!, by decide!⟩

/-- C8: Reset discards all carried-over state: after `reset` the pending
buffer is empty and the parser behaves exactly like a fresh parser on every
subsequent chunk or chunk sequence — no byte accumulated before the reset
influences records produced after it. -/
theorem reset_discards_state (st : ParserState) :
    (reset st).buffer = [] ∧ reset st = freshState ∧
    (∀ data : List Char, feed (reset st) data = feed freshState data) ∧
    (∀ chunks : List (List Char), feedAll (reset st) chunks = feedAll freshState chunks) :=
  ⟨rfl, rfl, fun _ => rfl, fun _ => rfl⟩

/-- C9: Command gating and framing: while the session is not connected
(guard of source line 205 false) `sendCommand` surfaces the
"Not connected to device" error and writes nothing; while connected it
writes exactly the command followed by a single newline, with no other
escaping, queueing or dropping. -/
theorem sendCommand_gating_framing (st : SessionState) (cmd : List Char) :
    (isConnectedSession st = false →
      sendCommand st cmd = ({ st with error := some notConnectedMsg }, [])) ∧
    (isConnectedSession st = true →
      sendCommand st cmd = (st, [cmd ++ ['\n']])) := by
  rcases st with ⟨hc, co, er⟩
  cases hc <;> cases co <;> simp [isConnectedSession, sendCommand]

/-- Witness for C9: at a connected session the command "M0" is framed as
"M0\n"; at a disconnected session it is rejected with the surfaced error. -/
theorem sendCommand_gating_framing_witness :
    sendCommand ⟨true, true, none⟩ "M0".toList =
      (⟨true, true, none⟩, ["M0".toList ++ ['\n']]) ∧
    sendCommand ⟨false, false, none⟩ "M0".toList =
      (⟨false, false, some notConnectedMsg⟩, []) :=
  ⟨(sendCommand_gating_framing ⟨true, true, none⟩ "M0".toList).2 (by decide),
   (sendCommand_gating_framing ⟨false, false, none⟩ "M0".toList).1 (by decide)⟩

/-- C6: Anomaly threshold exactness: every produced record has
`anomalyDetected = true` iff its `anomalyPercentage` exceeds 50 strictly;
in particular percent token 50 yields a record with the flag clear and 51
yields one with the flag set. -/
theorem anomaly_threshold_strict :
    (∀ (msg : List Char) (t : MotorTelemetry), parseTelemetry msg = some t →
      (t.anomalyDetected = true ↔ 50 < t.anomalyPercentage)) ∧
    parseTelemetry "Motor: Running Speed: 1.0 Anomaly: 50%".toList =
      some ⟨MotorStatus.Running, 1, 50, false⟩ ∧
    parseTelemetry "Motor: Running Speed: 1.0 Anomaly: 51%".toList =
      some ⟨MotorStatus.Running, 1, 51, true⟩ := by
  refine ⟨?_, by decide!, by decide!⟩
  intro msg t h
  obtain ⟨a, b, c, _, htoks⟩ := parseTelemetry_some h
  rw [parseLineToks_anomaly htoks]
  simp

/-- Witness for C6: the theorem applied to the concrete 51-percent line. -/
theorem anomaly_threshold_strict_witness :
    parseTelemetry "Motor: Running Speed: 1.0 Anomaly: 51%".toList =
      some ⟨MotorStatus.Running, 1, 51, true⟩ ∧
    ((⟨MotorStatus.Running, 1, 51, true⟩ : MotorTelemetry).anomalyDetected = true ↔
      50 < (⟨MotorStatus.Running, 1, 51, true⟩ : MotorTelemetry).anomalyPercentage) :=
  ⟨by decide!,
   anomaly_threshold_strict.1 "Motor: Running Speed: 1.0 Anomaly: 51%".toList _ (by decide!)⟩

/-- C7: RPM derivation: every produced record's derived rpm equals
`speed * 60 / (2 * π)` over the embedded number semantics, and a record of
speed 0 has rpm 0. -/
theorem rpm_derivation :
    (∀ (msg : List Char) (t : MotorTelemetry), parseTelemetry msg = some t →
      t.rpm = (t.speed : ℝ) * 60 / (2 * Real.pi)) ∧
    (∀ (msg : List Char) (t : MotorTelemetry), parseTelemetry msg = some t →
      t.speed = 0 → t.rpm = 0) := by
  refine ⟨fun _ _ _ => rfl, fun msg t _ h0 => ?_⟩
  rw [MotorTelemetry.rpm, h0]
  simp

/-- Witness for C7: the theorem applied to a concrete zero-speed line. -/
theorem rpm_derivation_witness :
    parseTelemetry "Motor: Stop  Speed: 0.00 Anomaly: 0%".toList =
      some ⟨MotorStatus.Stop, 0, 0, false⟩ ∧
    (⟨MotorStatus.Stop, 0, 0, false⟩ : MotorTelemetry).rpm = 0 :=
  ⟨by decide!,
   rpm_derivation.2 "Motor: Stop  Speed: 0.00 Anomaly: 0%".toList _ (by decide!) rfl⟩

/-- C3 counterexample: the status keyword is not matched case-insensitively:
the line "Motor: running Speed: 1.0 Anomaly: 0%" has valid speed and percent
tokens and a recognized keyword under non-canonical casing, yet
`parseTelemetry` rejects it (the `includes` check of source line 193
compares case-sensitively). -/
theorem status_case_insensitive_refuted :
    parseTelemetry "Motor: running Speed: 1.0 Anomaly: 0%".toList = none := by
  decide

/-- C4 counterexample: the valid status set is not {Running, Stopped, Error}:
a line whose status token is "Stopped" (claimed to be accepted) is rejected,
while the token "Stop" (outside the claimed set) is accepted. -/
theorem status_stopped_refuted :
    parseTelemetry "Motor: Stopped Speed: 1.0 Anomaly: 0%".toList = none ∧
    parseTelemetry "Motor: Stop Speed: 1.0 Anomaly: 0%".toList =
      some ⟨MotorStatus.Stop, 1, 0, false⟩ :=
  ⟨by decide!, by decide!⟩

/-- C10 counterexample: unanchored matching does not hold for arbitrary text
before the pattern: the valid pattern "Motor: Running Speed: 1.0 Anomaly: 5%"
is accepted on its own, but prefixing it with
"Motor: Aaa Speed: 1.0 Anomaly: 0% " — additional text that itself matches
the regex earlier with an invalid status token — makes `parseTelemetry`
reject the whole line, because the regex returns the leftmost match. -/
theorem unanchored_arbitrary_text_refuted :
    parseTelemetry "Motor: Running Speed: 1.0 Anomaly: 5%".toList =
      some ⟨MotorStatus.Running, 1, 5, false⟩ ∧
    parseTelemetry
        "Motor: Aaa Speed: 1.0 Anomaly: 0% Motor: Running Speed: 1.0 Anomaly: 5%".toList =
      none :=
  ⟨by decide!, by decide!⟩

/-- C3 amended: the framing keywords ("Motor:", "Speed:", "Anomaly:") are
matched case-insensitively, but the status token itself is compared
case-sensitively: a well-formed line with valid speed and percent tokens is
rejected whenever its status token differs from the three canonical
spellings, so recognized keywords under non-canonical casing (such as
"running", "STOP", "error") are rejected. -/
theorem status_keyword_case_sensitive :
    (∀ tok : List Char, tok ≠ [] → (∀ c ∈ tok, isWordChar c = true) →
      tok ≠ "Running".toList → tok ≠ "Stop".toList → tok ≠ "Error".toList →
      parseTelemetry (mkStatusLine tok) = none) ∧
    parseTelemetry "MOTOR: Running SPEED: 1.0 ANOMALY: 0%".toList =
      some ⟨MotorStatus.Running, 1, 0, false⟩ ∧
    parseTelemetry "motor: Error speed: 1.0 anomaly: 0%".toList =
      some ⟨MotorStatus.Error, 1, 0, false⟩ := by
  refine ⟨?_, by decide!, by decide!⟩
  intro tok hne hw h1 h2 h3
  rw [parse_mkStatusLine tok hne hw, statusOfToken, if_neg h1, if_neg h2, if_neg h3]
  rfl

/-- Witness for C3's amended theorem: the lowercase casing variant
"running" of a recognized keyword is rejected. -/
theorem status_keyword_case_sensitive_witness :
    parseTelemetry (mkStatusLine "running".toList) = none :=
  status_keyword_case_sensitive.1 "running".toList (by decide) (by decide)
    (by decide) (by decide) (by decide)

/-- C4 amended: for well-formed lines with valid speed and percent tokens,
the set of accepted status tokens is exactly {"Running", "Stop", "Error"}
(not "Stopped"), and every produced record carries one of the three
corresponding variants. -/
theorem status_variant_set_exact :
    (∀ tok : List Char, tok ≠ [] → (∀ c ∈ tok, isWordChar c = true) →
      ((∃ t, parseTelemetry (mkStatusLine tok) = some t) ↔
        tok ∈ ["Running".toList, "Stop".toList, "Error".toList])) ∧
    (∀ (msg : List Char) (t : MotorTelemetry), parseTelemetry msg = some t →
      t.status ∈ [MotorStatus.Running, MotorStatus.Stop, MotorStatus.Error]) := by
  constructor
  · intro tok hne hw
    rw [parse_mkStatusLine tok hne hw]
    unfold statusOfToken
    by_cases h1 : tok = "Running".toList
    · simp [h1]
    · by_cases h2 : tok = "Stop".toList
      · simp [h1, h2]
      · by_cases h3 : tok = "Error".toList
        · simp [h1, h2, h3]
        · rw [if_neg h1, if_neg h2, if_neg h3]
          refine iff_of_false ?_ ?_
          · rintro ⟨t, ht⟩
            simp at ht
          · intro hmem
            simp only [List.mem_cons, List.not_mem_nil, or_false] at hmem
            rcases hmem with rfl | rfl | rfl
            · exact h1 rfl
            · exact h2 rfl
            · exact h3 rfl
  · intro msg t _
    obtain ⟨s, sp, ap, ad⟩ := t
    cases s <;> simp

/-- Witness for C4's amended theorem: the token "Stopped" is outside the
accepted set. -/
theorem status_variant_set_exact_witness :
    (∃ t, parseTelemetry (mkStatusLine "Stopped".toList) = some t) ↔
      "Stopped".toList ∈ ["Running".toList, "Stop".toList, "Error".toList] :=
  status_variant_set_exact.1 "Stopped".toList (by decide) (by decide)

/-- C10 amended: unanchored pattern matching holds for the leftmost
occurrence: if the trimmed line splits as `pre ++ rest` where no position
inside `pre` starts a match of the pattern, `rest` starts with a match
whose captured tokens validate to a record `t`, then `parseTelemetry`
accepts the line and produces exactly `t` from those embedded tokens —
arbitrary text may precede the matched pattern and follow its `%` sign as
long as it does not complete an earlier match. -/
theorem unanchored_leftmost_match (msg pre rest stok sptok ptok : List Char)
    (t : MotorTelemetry) (hsplit : trim msg = pre ++ rest)
    (hpre : ∀ i < pre.length, tryMatch (pre.drop i ++ rest) = none)
    (hm : tryMatch rest = some (stok, sptok, ptok))
    (ht : parseLineToks stok sptok ptok = some t) :
    parseTelemetry msg = some t := by
  unfold parseTelemetry
  rw [hsplit, findMatch_append_of_none hpre hm]
  exact ht

/-- Witness for C10's amended theorem: "xx Motor: Running Speed: 1.0
Anomaly: 5% yy" is accepted with the tokens of the embedded pattern. -/
theorem unanchored_leftmost_match_witness :
    parseTelemetry "xx Motor: Running Speed: 1.0 Anomaly: 5% yy".toList =
      some ⟨MotorStatus.Running, 1, 5, false⟩ :=
  unanchored_leftmost_match _ "xx ".toList
    "Motor: Running Speed: 1.0 Anomaly: 5% yy".toList
    "Running".toList ['1', '.', '0'] ['5'] _
    (by decide) (by decide) (by decide) (by decide!)

end MotorBle
